import Mathlib

/-!
Verification development for `myvmk-cal.py`, a scraper that converts the MyVMK
events calendar page into an iCalendar (.ics) feed.

The Python source is shallowly embedded: strings are `List Char`, Python
`datetime.date` / `datetime.datetime` values become the `Date` / `DateTime`
structures below, fallible code (code that can raise) returns `Option`, and
the rendered HTML page is a small document-tree type mirroring what
BeautifulSoup exposes (tag name, class attribute token list, children).
External inputs that the script reads from the environment (the rendered
HTML, the current local date used as fallback, the UTC generation timestamp)
are passed as explicit parameters.
-/

namespace Myvmk

/-! ## Python string primitives -/

/-- The whitespace set used by Python's `str.strip`, `str.split` and by `\s`
in `re` patterns over `str`: ASCII whitespace, the C1 separators, and the
Unicode space characters. -/
def pyWs (c : Char) : Bool :=
  let n := c.toNat
  (9 ≤ n && n ≤ 13) || n = 32 || (28 ≤ n && n ≤ 31) || n = 133 || n = 160 ||
    n = 5760 || (8192 ≤ n && n ≤ 8202) || n = 8232 || n = 8233 || n = 8239 ||
    n = 8287 || n = 12288

/-- Python `str.strip()`: remove leading and trailing whitespace. -/
def pyStrip (l : List Char) : List Char :=
  ((l.dropWhile pyWs).reverse.dropWhile pyWs).reverse

/-- Accumulator loop for `splitPyWs`. -/
def splitAux : List Char → List Char → List (List Char)
  | [], acc => if acc = [] then [] else [acc.reverse]
  | c :: cs, acc =>
    if pyWs c then
      (if acc = [] then splitAux cs [] else acc.reverse :: splitAux cs [])
    else splitAux cs (c :: acc)

/-- Python `str.split()` with no argument: split on whitespace runs and drop
empty pieces. -/
def splitPyWs (l : List Char) : List (List Char) :=
  splitAux l []

/-- Python `str.lower()` (the calendar texts involved are ASCII). -/
def pyLower (c : Char) : Char := c.toLower

/-- Python `str.upper()` (the time texts involved are ASCII). -/
def pyUpper (c : Char) : Char := c.toUpper

/-- ASCII decimal digit test, as matched by `[0-9]` and `\d` in the source's
patterns (the source's inputs are ASCII; Unicode digits are not modelled). -/
def isDigitCh (c : Char) : Bool :=
  48 ≤ c.toNat && c.toNat ≤ 57

/-- Numeric value of an ASCII digit. -/
def digitVal (c : Char) : Nat := c.toNat - 48

/-- Python `int(s)` on a string of ASCII digits. -/
def digitsToNat (l : List Char) : Nat :=
  l.foldl (fun acc c => 10 * acc + digitVal c) 0

/-- Python `str.isdigit()` restricted to ASCII digits (nonempty, all digits). -/
def pyIsDigitStr (l : List Char) : Bool :=
  !l.isEmpty && l.all isDigitCh

/-- Drop a `\s*` prefix. -/
def dropWs (cs : List Char) : List Char := cs.dropWhile pyWs

/-! ## Dates and timestamps

`Date` models `datetime.date`, `DateTime` models the `datetime.datetime`
values built by `datetime.combine(base_date, time(h, m))`; the pipeline never
produces nonzero seconds or microseconds, so only hour and minute are carried.
-/

structure Date where
  year : Nat
  month : Nat
  day : Nat
  deriving DecidableEq, Repr

structure DateTime where
  date : Date
  hour : Nat
  minute : Nat
  deriving DecidableEq, Repr

/-- Gregorian leap year, as in `datetime`. -/
def isLeap (y : Nat) : Bool :=
  (y % 4 = 0 && y % 100 ≠ 0) || y % 400 = 0

/-- Days in a month of the proleptic Gregorian calendar. -/
def daysInMonth (y m : Nat) : Nat :=
  if m = 2 then (if isLeap y then 29 else 28)
  else if m = 4 || m = 6 || m = 9 || m = 11 then 30
  else 31

/-- The day after `d` in the Gregorian calendar. -/
def nextDay (d : Date) : Date :=
  if d.day < daysInMonth d.year d.month then ⟨d.year, d.month, d.day + 1⟩
  else if d.month < 12 then ⟨d.year, d.month + 1, 1⟩
  else ⟨d.year + 1, 1, 1⟩

/-- `datetime.date(y, m, d)`: validates the triple exactly as `datetime`
does (year 1–9999), returning `none` for the `ValueError` case. The source
calls it with Python `int` values, so the arguments are `Int`. -/
def mkDate (y m d : Int) : Option Date :=
  if 1 ≤ y ∧ y ≤ 9999 ∧ 1 ≤ m ∧ m ≤ 12 ∧ 1 ≤ d ∧ d ≤ (daysInMonth y.toNat m.toNat : Int) then
    some ⟨y.toNat, m.toNat, d.toNat⟩
  else none

/-- Validity of a `Date` (the invariant every Python `datetime.date` has). -/
def Date.validB (d : Date) : Bool :=
  1 ≤ d.year && d.year ≤ 9999 && 1 ≤ d.month && d.month ≤ 12 &&
    1 ≤ d.day && d.day ≤ daysInMonth d.year d.month

/-- Validity of a `DateTime`. -/
def DateTime.validB (t : DateTime) : Bool :=
  t.date.validB && t.hour < 24 && t.minute < 60

/-- The comparison key of a `datetime.datetime`: Python compares the
(year, month, day, hour, minute, ...) tuples lexicographically. -/
def DateTime.tuple (t : DateTime) : List Nat :=
  [t.date.year, t.date.month, t.date.day, t.hour, t.minute]

/-- Strict lexicographic order on equal-length `Nat` tuples. -/
def lexLt : List Nat → List Nat → Bool
  | _, [] => false
  | [], _ :: _ => true
  | a :: as, b :: bs =>
    if a < b then true else if a = b then lexLt as bs else false

/-- Lexicographic order on equal-length `Nat` tuples. -/
def lexLe : List Nat → List Nat → Bool
  | [], _ => true
  | _ :: _, [] => false
  | a :: as, b :: bs =>
    if a < b then true else if a = b then lexLe as bs else false

/-- Python `<` on `datetime` values. -/
def dtLt (a b : DateTime) : Bool := lexLt a.tuple b.tuple

/-- Python `<=` on `datetime` values. -/
def dtLe (a b : DateTime) : Bool := lexLe a.tuple b.tuple

/-- `t + timedelta(minutes = k)`: Python rolls extra whole days into the date
and raises `OverflowError` (here `none`) when the result would leave the
supported year range (`datetime.MAXYEAR = 9999`). -/
def addMinutesE (t : DateTime) (k : Nat) : Option DateTime :=
  let total := t.hour * 60 + t.minute + k
  let d := nextDay^[total / 1440] t.date
  if d.year ≤ 9999 then some ⟨d, total % 1440 / 60, total % 1440 % 60⟩ else none

/-! ## The time-range pattern

`TIME_RANGE_RE = ^\s*([0-9]{1,2}:[0-9]{2}\s*[AP]M)\s*-\s*([0-9]{1,2}:[0-9]{2}\s*[AP]M)\s*$`
compiled with `re.I`.  The matcher below is a direct functional transcription;
on the deterministic pattern the greedy choices coincide with the regex
engine's backtracking search.  It returns the two captured groups.
-/

/-- `[AP]` with `re.I`. -/
def isAP (c : Char) : Bool := c = 'A' || c = 'a' || c = 'P' || c = 'p'

/-- `M` with `re.I`. -/
def isMchar (c : Char) : Bool := c = 'M' || c = 'm'

/-- After the hour digits: `:[0-9]{2}\s*[AP]M`, returning the rest of the
captured group and the remainder of the input. -/
def matchClockTail (acc : List Char) (cs : List Char) : Option (List Char × List Char) :=
  match cs with
  | ':' :: d1 :: d2 :: rest =>
    if isDigitCh d1 && isDigitCh d2 then
      let ws := rest.takeWhile pyWs
      match rest.dropWhile pyWs with
      | a :: m :: rest2 =>
        if isAP a && isMchar m then
          some (acc ++ ':' :: d1 :: d2 :: (ws ++ [a, m]), rest2)
        else none
      | _ => none
    else none
  | _ => none

/-- One time group `[0-9]{1,2}:[0-9]{2}\s*[AP]M`. -/
def matchTimeGroup (cs : List Char) : Option (List Char × List Char) :=
  match cs with
  | c1 :: rest1 =>
    if isDigitCh c1 then
      match rest1 with
      | c2 :: rest2 =>
        if isDigitCh c2 then matchClockTail [c1, c2] rest2
        else matchClockTail [c1] rest1
      | [] => none
    else none
  | [] => none

/-- `TIME_RANGE_RE.match(text)`: `some (group1, group2)` on a match. -/
def timeRangeMatch (text : List Char) : Option (List Char × List Char) :=
  match matchTimeGroup (dropWs text) with
  | none => none
  | some (g1, rest) =>
    match dropWs rest with
    | '-' :: rest2 =>
      match matchTimeGroup (dropWs rest2) with
      | none => none
      | some (g2, rest3) => if dropWs rest3 = [] then some (g1, g2) else none
    | _ => none

/-! ## `strptime("%I:%M%p")`

`to_hm` uppercases the captured group, removes ASCII spaces (only `" "`, as
`str.replace(" ", "")` does) and parses it with
`datetime.strptime(s, "%I:%M%p")`.  CPython compiles that format to the
anchored pattern `(1[0-2]|0[1-9]|[1-9]):([0-5]\d|\d)(AM|PM)` (case folded
away by the prior `upper()`), raising `ValueError` (here `none`) on failure.
-/

/-- Continuation of `%I` after a leading `'1'`: `1[0-2]` when a digit 0–2
follows, else the one-digit alternative `[1-9]` matching the `'1'` alone. -/
def hourTail1 : List Char → Option (Nat × List Char)
  | c2 :: rest2 =>
    if 48 ≤ c2.toNat && c2.toNat ≤ 50 then some (10 + digitVal c2, rest2)
    else some (1, c2 :: rest2)
  | [] => some (1, [])

/-- Continuation of `%I` after a leading `'0'`: `0[1-9]`. -/
def hourTail0 : List Char → Option (Nat × List Char)
  | c2 :: rest2 =>
    if 49 ≤ c2.toNat && c2.toNat ≤ 57 then some (digitVal c2, rest2) else none
  | [] => none

/-- The `%I` field `1[0-2]|0[1-9]|[1-9]` with its alternation order. -/
def matchHour12 : List Char → Option (Nat × List Char)
  | [] => none
  | c :: rest =>
    if c = '1' then hourTail1 rest
    else if c = '0' then hourTail0 rest
    else if 49 ≤ c.toNat && c.toNat ≤ 57 then some (digitVal c, rest)
    else none

/-- The `%M` field `[0-5]\d|\d`. -/
def matchMin : List Char → Option (Nat × List Char)
  | [] => none
  | [c] => if isDigitCh c then some (digitVal c, []) else none
  | c1 :: c2 :: rest2 =>
    if (48 ≤ c1.toNat && c1.toNat ≤ 53) && isDigitCh c2 then
      some (10 * digitVal c1 + digitVal c2, rest2)
    else if isDigitCh c1 then some (digitVal c1, c2 :: rest2)
    else none

/-- Full `strptime(s, "%I:%M%p")` on an upper-cased, space-free string,
returning the 24-hour `(hour, minute)` pair as `.hour`/`.minute` do. -/
def strptimeIM (cs : List Char) : Option (Nat × Nat) :=
  match matchHour12 cs with
  | none => none
  | some (h, rest) =>
    match rest with
    | [] => none
    | c :: rest1 =>
      if c = ':' then
        match matchMin rest1 with
        | none => none
        | some (m, rest2) =>
          if rest2 = ['A', 'M'] then some (if h = 12 then 0 else h, m)
          else if rest2 = ['P', 'M'] then some (if h = 12 then 12 else h + 12, m)
          else none
      else none

/-- The source's inner `to_hm`: uppercase, delete ASCII spaces, `strptime`. -/
def to_hm (s : List Char) : Option (Nat × Nat) :=
  strptimeIM ((s.map pyUpper).filter (fun c => c ≠ ' '))

/-- `parse_time_range(text, base_date)` from the source: on a pattern match,
combine both clock values with the base date and wrap the end to the next day
when `end <= start`; otherwise fall back to the all-day range
`00:00:00`–`23:59:00` (`start + timedelta(hours=23, minutes=59)`).
`none` models an uncaught `ValueError`/`OverflowError`. -/
def parse_time_range (text : List Char) (base : Date) : Option (DateTime × DateTime) :=
  match timeRangeMatch text with
  | none =>
    (addMinutesE ⟨base, 0, 0⟩ 1439).map (fun e => (⟨base, 0, 0⟩, e))
  | some (g1, g2) =>
    match to_hm g1, to_hm g2 with
    | some (sh, sm), some (eh, em) =>
      if dtLe ⟨base, eh, em⟩ ⟨base, sh, sm⟩ then
        (addMinutesE ⟨base, eh, em⟩ 1440).map (fun e2 => (⟨base, sh, sm⟩, e2))
      else some (⟨base, sh, sm⟩, ⟨base, eh, em⟩)
    | _, _ => none

/-! ## Text escaping and timestamp formatting -/

/-- Python `str.replace(p, r)` for a single-character pattern `p`: every
occurrence of `p` in the original string is replaced by `r` (left-to-right
scanning of the original; for a one-character pattern this is exactly a
per-character expansion). -/
def pyReplace (p : Char) (r : List Char) (s : List Char) : List Char :=
  s.flatMap (fun c => if c = p then r else [c])

/-- `ics_escape(s)`: `s.replace("\\", "\\\\").replace(";", "\\;").replace(",", "\\,")`. -/
def ics_escape (s : List Char) : List Char :=
  pyReplace ',' ['\\', ','] (pyReplace ';' ['\\', ';'] (pyReplace '\\' ['\\', '\\'] s))

/-- Two-digit zero-padded decimal (faithful for values below 100). -/
def pad2 (n : Nat) : List Char :=
  [Nat.digitChar (n / 10), Nat.digitChar (n % 10)]

/-- Four-digit zero-padded decimal (faithful for values below 10000, the
`datetime` year range). -/
def pad4 (n : Nat) : List Char :=
  [Nat.digitChar (n / 1000), Nat.digitChar (n / 100 % 10),
   Nat.digitChar (n / 10 % 10), Nat.digitChar (n % 10)]

/-- `dt_obj.strftime("%Y%m%dT%H%M%S")`; seconds are always zero in this
pipeline. -/
def icsStamp (t : DateTime) : List Char :=
  pad4 t.date.year ++ pad2 t.date.month ++ pad2 t.date.day ++
    'T' :: (pad2 t.hour ++ pad2 t.minute ++ ['0', '0'])

/-- `ics_dt(dt_obj, tzid)`: prefix `;TZID=...` only when the label is truthy
(present and nonempty). -/
def ics_dt (t : DateTime) (tzid : Option (List Char)) : List Char :=
  match tzid with
  | some z => if z = [] then ':' :: icsStamp t else ";TZID=".data ++ z ++ ':' :: icsStamp t
  | none => ':' :: icsStamp t

/-- `datetime.isoformat()` for the pipeline's datetimes (seconds and
microseconds are always zero): `YYYY-MM-DDTHH:MM:SS`. -/
def isoformat (t : DateTime) : List Char :=
  pad4 t.date.year ++ '-' :: (pad2 t.date.month ++ '-' :: (pad2 t.date.day ++
    'T' :: (pad2 t.hour ++ ':' :: (pad2 t.minute ++ [':', '0', '0']))))

/-! ## SHA-1 (`hashlib.sha1`)

A direct transcription of FIPS 180 SHA-1 over byte lists, with 32-bit words
as `Nat` reduced `% 2^32`.  `make_uid` hashes the UTF-8 encoding of
`f"{title}|{start.isoformat()}|{end.isoformat()}"`.
-/

/-- Left-rotation of a 32-bit word (argument already below `2^32`). -/
def rotl (n x : Nat) : Nat :=
  (x * 2 ^ n + x / 2 ^ (32 - n)) % 4294967296

/-- Big-endian bytes of `n`, `k` bytes wide. -/
def natToBytesBE : Nat → Nat → List Nat
  | 0, _ => []
  | k + 1, n => natToBytesBE k (n / 256) ++ [n % 256]

/-- SHA-1 message padding: `0x80`, zeros to 56 mod 64, 64-bit big-endian bit
length. -/
def sha1pad (msg : List Nat) : List Nat :=
  msg ++ 128 :: (List.replicate ((119 - msg.length % 64) % 64) 0 ++
    natToBytesBE 8 (8 * msg.length % 18446744073709551616))

/-- Split a byte list into 64-byte chunks (accumulator holds the current
chunk reversed). -/
def chunksOf64 : List Nat → List Nat → List (List Nat)
  | [], acc => if acc = [] then [] else [acc.reverse]
  | b :: bs, acc =>
    if acc.length = 63 then (b :: acc).reverse :: chunksOf64 bs []
    else chunksOf64 bs (b :: acc)

/-- Big-endian 32-bit words of a 64-byte chunk. -/
def bytesToWords : List Nat → List Nat
  | b0 :: b1 :: b2 :: b3 :: rest =>
    (((b0 * 256 + b1) * 256 + b2) * 256 + b3) :: bytesToWords rest
  | _ => []

/-- Message-schedule extension: repeat `k` times
`w[i] = rotl1 (w[i-3] xor w[i-8] xor w[i-14] xor w[i-16])`. -/
def extendWords : Nat → List Nat → List Nat
  | 0, ws => ws
  | k + 1, ws =>
    let i := ws.length
    extendWords k (ws ++ [rotl 1 (Nat.xor (Nat.xor (ws.getD (i - 3) 0) (ws.getD (i - 8) 0))
      (Nat.xor (ws.getD (i - 14) 0) (ws.getD (i - 16) 0)))])

/-- One SHA-1 round: state `(a,b,c,d,e)`, input `(round index, word)`. -/
def sha1Step (st : Nat × Nat × Nat × Nat × Nat) (iw : Nat × Nat) :
    Nat × Nat × Nat × Nat × Nat :=
  let (a, b, c, d, e) := st
  let (i, w) := iw
  let f :=
    if i < 20 then Nat.lor (Nat.land b c) (Nat.land (Nat.xor b 4294967295) d)
    else if i < 40 then Nat.xor (Nat.xor b c) d
    else if i < 60 then Nat.lor (Nat.lor (Nat.land b c) (Nat.land b d)) (Nat.land c d)
    else Nat.xor (Nat.xor b c) d
  let k :=
    if i < 20 then 1518500249 else if i < 40 then 1859775393
    else if i < 60 then 2400959708 else 3395469782
  ((rotl 5 a + f + e + k + w) % 4294967296, a, rotl 30 b, c, d)

/-- Process one 64-byte chunk. -/
def sha1Chunk (st : Nat × Nat × Nat × Nat × Nat) (chunk : List Nat) :
    Nat × Nat × Nat × Nat × Nat :=
  let ws := extendWords 64 (bytesToWords chunk)
  let (h0, h1, h2, h3, h4) := st
  let (a, b, c, d, e) := ws.enum.foldl sha1Step st
  ((h0 + a) % 4294967296, (h1 + b) % 4294967296, (h2 + c) % 4294967296,
   (h3 + d) % 4294967296, (h4 + e) % 4294967296)

/-- SHA-1 of a byte list, as a single 160-bit natural number. -/
def sha1 (msg : List Nat) : Nat :=
  let st := (chunksOf64 (sha1pad msg) []).foldl sha1Chunk
    (1732584193, 4023233417, 2562383102, 271733878, 3285377520)
  ((((st.1 * 4294967296 + st.2.1) * 4294967296 + st.2.2.1) * 4294967296 +
    st.2.2.2.1) * 4294967296 + st.2.2.2.2)

/-- Zero-padded lowercase hex rendering, `k` digits wide (`hexdigest()` is
exactly the 40-digit rendering of the 160-bit value). -/
def toHexPad : Nat → Nat → List Char
  | 0, _ => []
  | k + 1, n => toHexPad k (n / 16) ++ [Nat.digitChar (n % 16)]

/-- UTF-8 bytes of one character. -/
def utf8Char (c : Char) : List Nat :=
  let n := c.toNat
  if n < 128 then [n]
  else if n < 2048 then [192 + n / 64, 128 + n % 64]
  else if n < 65536 then [224 + n / 4096, 128 + n / 64 % 64, 128 + n % 64]
  else [240 + n / 262144, 128 + n / 4096 % 64, 128 + n / 64 % 64, 128 + n % 64]

/-- `str.encode("utf-8")`. -/
def utf8Encode (s : List Char) : List Nat := s.flatMap utf8Char

/-- The string hashed by `make_uid`: `f"{title}|{start.isoformat()}|{end.isoformat()}"`. -/
def uidData (title : List Char) (start finish : DateTime) : List Char :=
  title ++ '|' :: (isoformat start ++ '|' :: isoformat finish)

/-- `make_uid(title, start, end)`: SHA-1 hex digest of `uidData` plus the
`@myvmk` domain tag. -/
def make_uid (title : List Char) (start finish : DateTime) : List Char :=
  toHexPad 40 (sha1 (utf8Encode (uidData title start finish))) ++ "@myvmk".data

/-! ## Feed serialization (`build_ics`) -/

/-- A resolved event, the dict
`{"title": ..., "start": ..., "end": ..., "source": ...}` built by
`scrape_events`.  `finish` models the `"end"` key. -/
structure Event where
  title : List Char
  start : DateTime
  finish : DateTime
  source : List Char
  deriving DecidableEq, Repr

/-- `title or "MyVMK Event"`. -/
def orPlaceholder (title : List Char) : List Char :=
  if title = [] then "MyVMK Event".data else title

/-- The VEVENT block emitted for one event.  `now` is the run-wide
`DTSTAMP` string captured once at serialization start. -/
def eventBlock (now : List Char) (tzid : Option (List Char)) (ev : Event) :
    List (List Char) :=
  "BEGIN:VEVENT".data ::
  ("DTSTAMP:".data ++ now) ::
  ("UID:".data ++ make_uid (orPlaceholder ev.title) ev.start ev.finish) ::
  ("SUMMARY:".data ++ ics_escape (orPlaceholder ev.title)) ::
  ("DTSTART".data ++ ics_dt ev.start tzid) ::
  ("DTEND".data ++ ics_dt ev.finish tzid) ::
  ((if ev.source ≠ [] then [("DESCRIPTION:".data ++ ics_escape ev.source)] else []) ++
   ["END:VEVENT".data])

/-- The full line list built by `build_ics` before joining. -/
def icsLines (events : List Event) (tzid : Option (List Char))
    (cal_name : List Char) (now : List Char) : List (List Char) :=
  ["BEGIN:VCALENDAR".data, "VERSION:2.0".data, "PRODID:-//MyVMK Scraper//EN".data,
   "CALSCALE:GREGORIAN".data, ("X-WR-CALNAME:".data ++ ics_escape cal_name)] ++
  events.flatMap (eventBlock now tzid) ++
  ["END:VCALENDAR".data]

/-- `"\n".join(lines)`. -/
def joinLines : List (List Char) → List Char
  | [] => []
  | [l] => l
  | l :: ls => l ++ '\n' :: joinLines ls

/-- `build_ics(events, tzid, cal_name)`: the serialized document,
`"\n".join(lines) + "\n"`. -/
def build_ics (events : List Event) (tzid : Option (List Char))
    (cal_name : List Char) (now : List Char) : List Char :=
  joinLines (icsLines events tzid cal_name now) ++ ['\n']

/-! ## The rendered document

A parsed HTML document as BeautifulSoup exposes it: element nodes carry a
tag name, the (optional) multi-valued `class` attribute already split into
tokens (`html.parser` treats `class` as a whitespace-separated list), and
children; text nodes carry a string.  The tree uses a first-child /
next-sibling ("forest") encoding so that every traversal below is plainly
structural: `nilN` is the empty forest, and each node also carries the
forest of its following siblings.
-/

inductive Node where
  | nilN : Node
  | textN (s : List Char) (next : Node) : Node
  | elemN (tag : List Char) (classes : Option (List (List Char)))
      (children : Node) (next : Node) : Node

/-- All nodes of a forest in document (pre-order) order, each detached from
its following siblings — exactly the order in which `find_all` visits and
returns matches.  For the whole document this models `soup.descendants`; for
an element's `children` forest it models searching within that element. -/
def forestNodes : Node → List Node
  | .nilN => []
  | .textN s nx => .textN s .nilN :: forestNodes nx
  | .elemN t c ch nx => .elemN t c ch .nilN :: (forestNodes ch ++ forestNodes nx)

/-- Concatenation of the stripped text descendants of a forest, i.e.
`get_text(strip=True)` (empty pieces contribute nothing as the separator is
empty). -/
def strippedTextF : Node → List Char
  | .nilN => []
  | .textN s nx => pyStrip s ++ strippedTextF nx
  | .elemN _ _ ch nx => strippedTextF ch ++ strippedTextF nx

/-- `node.get_text(strip=True)`. -/
def nodeText : Node → List Char
  | .nilN => []
  | .textN s _ => pyStrip s
  | .elemN _ _ ch _ => strippedTextF ch

/-- `safe_text(x)` from the source: `(x.get_text(strip=True) if x else "").strip()`. -/
def safe_text (x : Option Node) : List Char :=
  match x with
  | none => []
  | some n => pyStrip (nodeText n)

/-- The children forest of a node. -/
def childrenOf : Node → Node
  | .elemN _ _ ch _ => ch
  | _ => .nilN

/-- `" ".join(tokens)`. -/
def joinSpaces : List (List Char) → List Char
  | [] => []
  | [t] => t
  | t :: ts => t ++ ' ' :: joinSpaces ts

/-- BeautifulSoup's matching of a `class_` filter function against a tag's
`class` attribute (`SoupStrainer._matches`): a missing attribute is passed to
the function as `None`; a multi-valued attribute is matched against each
token individually and, failing that, against the space-joined string. -/
def bs4ClassMatch (f : Option (List Char) → Bool)
    (classes : Option (List (List Char))) : Bool :=
  match classes with
  | none => f none
  | some items =>
    items.any (fun i => f (some i)) ||
      f (some (joinSpaces items))

/-- `lambda c: c and "day" in c.split() and "hidden" not in c.split()`. -/
def dayLambda (c : Option (List Char)) : Bool :=
  match c with
  | none => false
  | some s =>
    if s = [] then false
    else (splitPyWs s).contains "day".data && !(splitPyWs s).contains "hidden".data

/-- `lambda c: c and tok in c.split()` (used with `number`, `event-li`,
`event-title`, `event-time`). -/
def tokenLambda (tok : List Char) (c : Option (List Char)) : Bool :=
  match c with
  | none => false
  | some s => if s = [] then false else (splitPyWs s).contains tok

/-- `lambda c: c and "event" in c.split() and "day-targetable" in c.split()`. -/
def containerLambda (c : Option (List Char)) : Bool :=
  match c with
  | none => false
  | some s =>
    if s = [] then false
    else (splitPyWs s).contains "event".data && (splitPyWs s).contains "day-targetable".data

/-- `find_all(tag, class_=f)` membership test for one node. -/
def tagClassPred (tag : List Char) (f : Option (List Char) → Bool) : Node → Bool
  | .elemN t cls _ _ => t = tag && bs4ClassMatch f cls
  | _ => false

/-- The day-container filter of `scrape_events`:
`soup.find_all("div", class_=lambda c: c and "day" in c.split() and "hidden" not in c.split())`. -/
def isDayDiv : Node → Bool := tagClassPred "div".data dayLambda

/-- Does an element carry the class token `header` (CSS selector `.header`)? -/
def headerPred : Node → Bool
  | .elemN _ (some cls) _ _ => cls.contains "header".data
  | _ => false

/-- Is the node an `h1` or `h2` element? -/
def isH1H2 : Node → Bool
  | .elemN t _ _ _ => t = "h1".data || t = "h2".data
  | _ => false

/-- First `some` produced by `f` over a list, in order. -/
def firstSomeList (f : α → Option β) : List α → Option β
  | [] => none
  | a :: as =>
    match f a with
    | some b => some b
    | none => firstSomeList f as

/-- The twelve canonical month names with their numbers, in the alternation
order of the source's pattern `(january|february|...)\s+(\d{4})`. -/
def monthTable : List (List Char × Nat) :=
  [("january".data, 1), ("february".data, 2), ("march".data, 3), ("april".data, 4),
   ("may".data, 5), ("june".data, 6), ("july".data, 7), ("august".data, 8),
   ("september".data, 9), ("october".data, 10), ("november".data, 11),
   ("december".data, 12)]

/-- Strip a literal lead from a string, if present. -/
def dropLead : List Char → List Char → Option (List Char)
  | [], rest => some rest
  | _ :: _, [] => none
  | p :: ps, c :: cs => if c = p then dropLead ps cs else none

/-- After a month name: `\s+(\d{4})` — at least one whitespace, then four
digits (further characters are unconstrained, as the pattern is unanchored). -/
def yearAfterWs (rest : List Char) : Option Nat :=
  match rest with
  | c :: cs =>
    if pyWs c then
      match cs.dropWhile pyWs with
      | d1 :: d2 :: d3 :: d4 :: _ =>
        if isDigitCh d1 && isDigitCh d2 && isDigitCh d3 && isDigitCh d4 then
          some (digitsToNat [d1, d2, d3, d4])
        else none
      | _ => none
    else none
  | [] => none

/-- Try the month/year pattern at one position. -/
def matchMonthYearAt (t : List Char) : Option (Nat × Nat) :=
  firstSomeList
    (fun p =>
      match dropLead p.1 t with
      | some rest => (yearAfterWs rest).map (fun y => (y, p.2))
      | none => none)
    monthTable

/-- `re.search` of the month/year pattern: scan positions left to right. -/
def searchMY : List Char → Option (Nat × Nat)
  | [] => none
  | c :: cs =>
    match matchMonthYearAt (c :: cs) with
    | some r => some r
    | none => searchMY cs

/-- `parse_header_month_year(soup)`: first try the element selected by
`.header` (the `find("div", class_="header")` fallback can only match when a
`header` class token exists, so it adds nothing), then every `h1`/`h2`
element in document order; search each candidate's lowered `safe_text` for
`<month name> <4-digit year>`.  Returns `(year, month)` as Python ints. -/
def parse_header_month_year (doc : Node) : Option Int × Option Int :=
  let headerN := ((forestNodes doc).filter headerPred).head?
  let candidates :=
    (match headerN with | some h => [h] | none => []) ++
      (forestNodes doc).filter isH1H2
  match firstSomeList (fun n => searchMY ((safe_text (some n)).map pyLower)) candidates with
  | some (y, mo) => (some (Int.ofNat y), some (Int.ofNat mo))
  | none => (none, none)

/-! ## Month-context resolution and extraction (`scrape_events`) -/

/-- Python truthiness of an `Optional[int]`. -/
def intTruthy : Option Int → Bool
  | none => false
  | some n => n ≠ 0

/-- Lines 154–163 of the source: start from the parsed header values,
overwrite each field by its override when the override is truthy, and if
either resulting field is still falsy replace BOTH with the current local
date's year and month. -/
def resolveYM (parsed : Option Int × Option Int) (forced_year forced_month : Option Int)
    (todayY todayM : Int) : Int × Int :=
  let y := if intTruthy forced_year then forced_year else parsed.1
  let m := if intTruthy forced_month then forced_month else parsed.2
  if intTruthy y && intTruthy m then (y.getD 0, m.getD 0) else (todayY, todayM)

/-- Sequence an effectful map and concatenate the chunks; `none` (an
uncaught exception in one iteration) aborts the whole traversal. -/
def mapMConcat (f : α → Option (List β)) : List α → Option (List β)
  | [] => some []
  | a :: as =>
    match f a with
    | none => none
    | some x =>
      match mapMConcat f as with
      | none => none
      | some r => some (x ++ r)

/-- The entry's detail container: `li.find("div", class_=...)` with the
`event`/`day-targetable` classes, else the `li` itself.  (The found tag is
modelled as truthy whenever present.) -/
def containerOf (li : Node) : Node :=
  match ((forestNodes (childrenOf li)).filter
      (tagClassPred "div".data containerLambda)).head? with
  | some c => c
  | none => li

/-- Title text of an entry: `safe_text(container.find("p", class_=... "event-title" ...))`. -/
def entryTitle (li : Node) : List Char :=
  safe_text (((forestNodes (childrenOf (containerOf li))).filter
    (tagClassPred "p".data (tokenLambda "event-title".data))).head?)

/-- Time text of an entry: `safe_text(container.find("p", class_=... "event-time" ...))`. -/
def entryTime (li : Node) : List Char :=
  safe_text (((forestNodes (childrenOf (containerOf li))).filter
    (tagClassPred "p".data (tokenLambda "event-time".data))).head?)

/-- The loop body over one `li.event-li` node: skip when both title and time
text are empty, otherwise interpret the time range and build the event dict
(`"title": title or "MyVMK Event"`, `"source": url`). -/
def processLi (url : List Char) (base : Date) (li : Node) : Option (List Event) :=
  if entryTitle li = [] ∧ entryTime li = [] then some []
  else
    match parse_time_range (entryTime li) base with
    | none => none
    | some (s, e) => some [⟨orPlaceholder (entryTitle li), s, e, url⟩]

/-- The loop body over one visible day container: find the `p.number` label,
require it to be all digits, build the date (skipping the container on
`ValueError`), then process the `li.event-li` entries. -/
def processDay (year month : Int) (url : List Char) (d : Node) : Option (List Event) :=
  match ((forestNodes (childrenOf d)).filter
      (tagClassPred "p".data (tokenLambda "number".data))).head? with
  | none => some []
  | some numTag =>
    if pyIsDigitStr (safe_text (some numTag)) then
      match mkDate year month (Int.ofNat (digitsToNat (safe_text (some numTag)))) with
      | none => some []
      | some base =>
        mapMConcat (processLi url base)
          ((forestNodes (childrenOf d)).filter
            (tagClassPred "li".data (tokenLambda "event-li".data)))
    else some []

/-- `scrape_events` over an already-rendered document (`load_html` is the
external renderer; the current local date is the explicit `todayY`/`todayM`
pair).  `none` models an uncaught exception escaping the function. -/
def scrape_events (doc : Node) (url : List Char)
    (forced_year forced_month : Option Int) (todayY todayM : Int) :
    Option (List Event) :=
  let ym := resolveYM (parse_header_month_year doc) forced_year forced_month todayY todayM
  mapMConcat (processDay ym.1 ym.2 url) ((forestNodes doc).filter isDayDiv)

/-! ## Spec-side characterization and concrete test documents -/

/-- Modelled from the spec: the escaping rule as stated — each of backslash,
semicolon and comma is escaped independently, exactly once, and no character
introduced by an earlier replacement is escaped again.  To be compared with
the source's sequential-replacement `ics_escape`. -/
def escCharSpec (c : Char) : List Char :=
  if c = '\\' then ['\\', '\\']
  else if c = ';' then ['\\', ';']
  else if c = ',' then ['\\', ',']
  else [c]

/-- A rendered page whose header yields no month/year match (no `.header`
element; the only heading reads "Calendar"). -/
def docNoHeader : Node :=
  .elemN "html".data none
    (.elemN "h1".data none (.textN "Calendar".data .nilN) .nilN)
    .nilN

/-- A rendered page whose only day container carries
`class="day hidden"` yet holds a well-formed event entry. -/
def docHiddenDay : Node :=
  .elemN "html".data none
    (.elemN "div".data (some ["day".data, "hidden".data])
      (.elemN "p".data (some ["number".data]) (.textN "5".data .nilN)
        (.elemN "ul".data none
          (.elemN "li".data (some ["event-li".data])
            (.elemN "div".data (some ["event".data, "day-targetable".data])
              (.elemN "p".data (some ["event-title".data])
                (.textN "Fireworks".data .nilN)
                (.elemN "p".data (some ["event-time".data])
                  (.textN "6:00 PM - 7:00 PM".data .nilN) .nilN))
              .nilN)
            .nilN)
          .nilN))
      .nilN)
    .nilN

/-- A rendered page with one visible day container whose single entry has an
empty title but a well-formed time text. -/
def docEmptyTitle : Node :=
  .elemN "html".data none
    (.elemN "div".data (some ["day".data])
      (.elemN "p".data (some ["number".data]) (.textN "5".data .nilN)
        (.elemN "li".data (some ["event-li".data])
          (.elemN "div".data (some ["event".data, "day-targetable".data])
            (.elemN "p".data (some ["event-time".data])
              (.textN "6:00 PM - 7:00 PM".data .nilN) .nilN)
            .nilN)
          .nilN))
      .nilN)
    .nilN

/-- A rendered page with one visible day container and one ordinary event. -/
def docVisibleDay : Node :=
  .elemN "html".data none
    (.elemN "div".data (some ["day".data])
      (.elemN "p".data (some ["number".data]) (.textN "7".data .nilN)
        (.elemN "li".data (some ["event-li".data])
          (.elemN "div".data (some ["event".data, "day-targetable".data])
            (.elemN "p".data (some ["event-title".data])
              (.textN "Trivia".data .nilN)
              (.elemN "p".data (some ["event-time".data])
                (.textN "8:00 PM - 9:00 PM".data .nilN) .nilN))
            .nilN)
          .nilN))
      .nilN)
    .nilN

/-- The `li.event-li` entry of `docEmptyTitle`, as a standalone node. -/
def liEmptyTitle : Node :=
  .elemN "li".data (some ["event-li".data])
    (.elemN "div".data (some ["event".data, "day-targetable".data])
      (.elemN "p".data (some ["event-time".data])
        (.textN "6:00 PM - 7:00 PM".data .nilN) .nilN)
      .nilN)
    .nilN

/-- Number of occurrences of a line in a line list (used to state that every
opened block of the serialized document is closed). -/
def countLine (target : List Char) : List (List Char) → Nat
  | [] => 0
  | l :: ls => (if l = target then 1 else 0) + countLine target ls

/-! # Theorems -/

/-! ## Order and arithmetic lemmas -/

theorem lexLt_cons_self {as bs : List Nat} (a : Nat) (h : lexLt as bs = true) :
    lexLt (a :: as) (a :: bs) = true := by
  simp [lexLt, h]

theorem lexLt_cons_lt {a b : Nat} (h : a < b) (as bs : List Nat) :
    lexLt (a :: as) (b :: bs) = true := by
  simp [lexLt, h]

theorem lexLt_of_not_lexLe {x y : List Nat} (h : lexLe x y = false) :
    lexLt y x = true := by
  induction x generalizing y with
  | nil => simp [lexLe] at h
  | cons a as ih =>
    cases y with
    | nil => rfl
    | cons b bs =>
      simp only [lexLe] at h
      split_ifs at h with hab heq
      · subst heq
        exact lexLt_cons_self a (ih h)
      · exact lexLt_cons_lt (by omega) bs as

theorem hourTail1_le {cs : List Char} {h : Nat} {rest : List Char}
    (hm : hourTail1 cs = some (h, rest)) : h ≤ 12 := by
  cases cs with
  | nil =>
    simp only [hourTail1, Option.some.injEq, Prod.mk.injEq] at hm
    omega
  | cons c2 r2 =>
    simp only [hourTail1] at hm
    split_ifs at hm with h2
    · simp only [Option.some.injEq, Prod.mk.injEq] at hm
      simp only [Bool.and_eq_true, decide_eq_true_eq] at h2
      simp only [digitVal] at hm
      omega
    · simp only [Option.some.injEq, Prod.mk.injEq] at hm
      omega

theorem hourTail0_le {cs : List Char} {h : Nat} {rest : List Char}
    (hm : hourTail0 cs = some (h, rest)) : h ≤ 12 := by
  cases cs with
  | nil => simp [hourTail0] at hm
  | cons c2 r2 =>
    simp only [hourTail0] at hm
    split_ifs at hm with h2
    · simp only [Option.some.injEq, Prod.mk.injEq] at hm
      simp only [Bool.and_eq_true, decide_eq_true_eq] at h2
      simp only [digitVal] at hm
      omega

theorem matchHour12_le {cs : List Char} {h : Nat} {rest : List Char}
    (hm : matchHour12 cs = some (h, rest)) : h ≤ 12 := by
  cases cs with
  | nil => simp [matchHour12] at hm
  | cons c cs' =>
    simp only [matchHour12] at hm
    split_ifs at hm with h1 h0 h3
    · exact hourTail1_le hm
    · exact hourTail0_le hm
    · simp only [Option.some.injEq, Prod.mk.injEq] at hm
      simp only [Bool.and_eq_true, decide_eq_true_eq] at h3
      simp only [digitVal] at hm
      omega

theorem matchMin_lt {cs : List Char} {m : Nat} {rest : List Char}
    (hm : matchMin cs = some (m, rest)) : m < 60 := by
  match cs with
  | [] => simp [matchMin] at hm
  | [c] =>
    simp only [matchMin] at hm
    split_ifs at hm with h1
    · simp only [Option.some.injEq, Prod.mk.injEq] at hm
      simp only [isDigitCh, Bool.and_eq_true, decide_eq_true_eq] at h1
      simp only [digitVal] at hm
      omega
  | c1 :: c2 :: r2 =>
    simp only [matchMin] at hm
    split_ifs at hm with h1 h2
    · simp only [Option.some.injEq, Prod.mk.injEq] at hm
      simp only [isDigitCh, Bool.and_eq_true, decide_eq_true_eq] at h1
      simp only [digitVal] at hm
      omega
    · simp only [Option.some.injEq, Prod.mk.injEq] at hm
      simp only [isDigitCh, Bool.and_eq_true, decide_eq_true_eq] at h2
      simp only [digitVal] at hm
      omega

theorem strptimeIM_bounds {cs : List Char} {h m : Nat}
    (hp : strptimeIM cs = some (h, m)) : h < 24 ∧ m < 60 := by
  unfold strptimeIM at hp
  split at hp
  · exact absurd hp (by simp)
  next h12 rest heq =>
    have hle := matchHour12_le heq
    split at hp
    · exact absurd hp (by simp)
    next c rest1 =>
      split at hp
      next hc =>
        split at hp
        · exact absurd hp (by simp)
        next mv rest2 heq2 =>
          have hmlt := matchMin_lt heq2
          split at hp
          next ham =>
            simp only [Option.some.injEq, Prod.mk.injEq] at hp
            obtain ⟨hp1, hp2⟩ := hp
            constructor
            · split at hp1 <;> omega
            · omega
          next ham =>
            split at hp
            next hpm =>
              simp only [Option.some.injEq, Prod.mk.injEq] at hp
              obtain ⟨hp1, hp2⟩ := hp
              constructor
              · split at hp1 <;> omega
              · omega
            next hpm => exact absurd hp (by simp)
      next hc => exact absurd hp (by simp)

theorem to_hm_bounds {g : List Char} {h m : Nat}
    (hp : to_hm g = some (h, m)) : h < 24 ∧ m < 60 :=
  strptimeIM_bounds hp

theorem addMinutesE_allday {b : Date} (hy : b.year ≤ 9999) :
    addMinutesE ⟨b, 0, 0⟩ 1439 = some ⟨b, 23, 59⟩ := by
  simp [addMinutesE, hy]

theorem addMinutesE_wrap {b : Date} {h mn : Nat} (hh : h < 24) (hm : mn < 60) :
    addMinutesE ⟨b, h, mn⟩ 1440 =
      if (nextDay b).year ≤ 9999 then some ⟨nextDay b, h, mn⟩ else none := by
  have hdiv : (h * 60 + mn + 1440) / 1440 = 1 := by omega
  have hmod : (h * 60 + mn + 1440) % 1440 = h * 60 + mn := by omega
  have h60a : (h * 60 + mn) / 60 = h := by omega
  have h60b : (h * 60 + mn) % 60 = mn := by omega
  simp only [addMinutesE, hdiv, hmod, h60a, h60b, Function.iterate_one]

theorem mapMConcat_mem {α β : Type} {f : α → Option (List β)} {l : List α}
    {r : List β} (h : mapMConcat f l = some r) {b : β} (hb : b ∈ r) :
    ∃ a ∈ l, ∃ s, f a = some s ∧ b ∈ s := by
  induction l generalizing r with
  | nil =>
    simp only [mapMConcat, Option.some.injEq] at h
    subst h
    simp at hb
  | cons a as ih =>
    simp only [mapMConcat] at h
    cases hfa : f a with
    | none => rw [hfa] at h; simp at h
    | some x =>
      rw [hfa] at h
      cases hrec : mapMConcat f as with
      | none => rw [hrec] at h; simp at h
      | some rs =>
        rw [hrec] at h
        simp only [Option.some.injEq] at h
        subst h
        rcases List.mem_append.1 hb with hx | hr2
        · exact ⟨a, List.mem_cons_self a as, x, hfa, hx⟩
        · obtain ⟨a2, ha2, s, hs, hbs⟩ := ih hrec hr2
          exact ⟨a2, List.mem_cons_of_mem _ ha2, s, hs, hbs⟩

theorem processLi_mem {url : List Char} {base : Date} {li : Node} {l : List Event}
    (h : processLi url base li = some l) {ev : Event} (hev : ev ∈ l) :
    ev.source = url ∧
      parse_time_range (entryTime li) base = some (ev.start, ev.finish) ∧
      ev.title = orPlaceholder (entryTitle li) := by
  unfold processLi at h
  split_ifs at h with hskip
  · simp only [Option.some.injEq] at h
    subst h
    simp at hev
  · cases hp : parse_time_range (entryTime li) base with
    | none => rw [hp] at h; simp at h
    | some pr =>
      obtain ⟨s, e⟩ := pr
      rw [hp] at h
      simp only [Option.some.injEq] at h
      subst h
      simp only [List.mem_singleton] at hev
      subst hev
      exact ⟨rfl, by simpa using hp, rfl⟩

theorem processDay_mem {year month : Int} {url : List Char} {d : Node}
    {l : List Event} (h : processDay year month url d = some l)
    {ev : Event} (hev : ev ∈ l) :
    ev.source = url ∧
      ∃ base li, parse_time_range (entryTime li) base = some (ev.start, ev.finish) ∧
        ev.title = orPlaceholder (entryTitle li) := by
  unfold processDay at h
  split at h
  · simp only [Option.some.injEq] at h
    subst h
    simp at hev
  next numTag heq =>
    split_ifs at h with hdig
    · split at h
      · simp only [Option.some.injEq] at h
        subst h
        simp at hev
      next base heqb =>
        obtain ⟨li, hli, s, hs, hbs⟩ := mapMConcat_mem h hev
        have hfacts := processLi_mem hs hbs
        exact ⟨hfacts.1, base, li, hfacts.2.1, hfacts.2.2⟩
    · simp only [Option.some.injEq] at h
      subst h
      simp at hev

theorem scrape_events_mem {doc : Node} {url : List Char} {fy fm : Option Int}
    {ty tm : Int} {evs : List Event}
    (h : scrape_events doc url fy fm ty tm = some evs) {ev : Event} (hev : ev ∈ evs) :
    ev.source = url ∧
      ∃ base li, parse_time_range (entryTime li) base = some (ev.start, ev.finish) ∧
        ev.title = orPlaceholder (entryTitle li) := by
  simp only [scrape_events] at h
  obtain ⟨d, hd, s, hs, hbs⟩ := mapMConcat_mem h hev
  exact processDay_mem hs hbs

theorem dtLt_nextDay (b : Date) (h1 m1 h2 m2 : Nat) :
    dtLt ⟨b, h1, m1⟩ ⟨nextDay b, h2, m2⟩ = true := by
  unfold nextDay
  split_ifs with hd hm
  · simp only [dtLt, DateTime.tuple]
    exact lexLt_cons_self _ (lexLt_cons_self _ (lexLt_cons_lt (Nat.lt_succ_self _) _ _))
  · simp only [dtLt, DateTime.tuple]
    exact lexLt_cons_self _ (lexLt_cons_lt (Nat.lt_succ_self _) _ _)
  · simp only [dtLt, DateTime.tuple]
    exact lexLt_cons_lt (Nat.lt_succ_self _) _ _

/-! ## Claim theorems: the Time Interpreter -/

/-- C2: for every time-range text that does not match `TIME_RANGE_RE` and
every (valid) base date, `parse_time_range` returns exactly 00:00:00 of the
base date and 23:59:00 of the same date (start + 23h59m) and raises no error
(`some`, never `none`); in particular the empty string and a single time
with no range at base 2025-10-15 fall back this way. -/
theorem c2_allday_fallback :
    (∀ (text : List Char) (base : Date), base.validB = true →
      timeRangeMatch text = none →
      parse_time_range text base = some (⟨base, 0, 0⟩, ⟨base, 23, 59⟩)) ∧
    parse_time_range "".data ⟨2025, 10, 15⟩ =
      some (⟨⟨2025, 10, 15⟩, 0, 0⟩, ⟨⟨2025, 10, 15⟩, 23, 59⟩) ∧
    parse_time_range "6:00 PM".data ⟨2025, 10, 15⟩ =
      some (⟨⟨2025, 10, 15⟩, 0, 0⟩, ⟨⟨2025, 10, 15⟩, 23, 59⟩) := by
  refine ⟨?_, by decide, by decide⟩
  intro text base hv hnm
  have hy : base.year ≤ 9999 := by
    simp only [Date.validB, Bool.and_eq_true, decide_eq_true_eq] at hv
    omega
  simp only [parse_time_range, hnm]
  rw [addMinutesE_allday hy]
  rfl

/-- Witness for `c2_allday_fallback` at the non-matching text "whenever". -/
theorem c2_allday_fallback_witness :
    Date.validB ⟨2025, 10, 15⟩ = true ∧
    timeRangeMatch "whenever".data = none ∧
    parse_time_range "whenever".data ⟨2025, 10, 15⟩ =
      some (⟨⟨2025, 10, 15⟩, 0, 0⟩, ⟨⟨2025, 10, 15⟩, 23, 59⟩) :=
  ⟨by decide, by decide,
    c2_allday_fallback.1 "whenever".data ⟨2025, 10, 15⟩ (by decide) (by decide)⟩

/-- C3: on a pattern match, when the parsed end clock time is not strictly
later than the parsed start clock time (Python's `end <= start` on the
combined datetimes), 24 hours are added to the end timestamp, landing on the
next day with the same clock time; and the two concrete scenarios at base
2025-10-15: "11:30 PM - 12:30 AM" rolls over to 2025-10-16T00:30:00 while
"6:00 PM - 7:00 PM" stays on the base date. -/
theorem c3_midnight_rollover :
    (∀ (text : List Char) (base : Date) (g1 g2 : List Char) (sh sm eh em : Nat)
      (e2 : DateTime),
      timeRangeMatch text = some (g1, g2) →
      to_hm g1 = some (sh, sm) →
      to_hm g2 = some (eh, em) →
      dtLe ⟨base, eh, em⟩ ⟨base, sh, sm⟩ = true →
      addMinutesE ⟨base, eh, em⟩ 1440 = some e2 →
      parse_time_range text base = some (⟨base, sh, sm⟩, e2) ∧
        e2 = ⟨nextDay base, eh, em⟩) ∧
    parse_time_range "11:30 PM - 12:30 AM".data ⟨2025, 10, 15⟩ =
      some (⟨⟨2025, 10, 15⟩, 23, 30⟩, ⟨⟨2025, 10, 16⟩, 0, 30⟩) ∧
    parse_time_range "6:00 PM - 7:00 PM".data ⟨2025, 10, 15⟩ =
      some (⟨⟨2025, 10, 15⟩, 18, 0⟩, ⟨⟨2025, 10, 15⟩, 19, 0⟩) := by
  refine ⟨?_, by decide, by decide⟩
  intro text base g1 g2 sh sm eh em e2 hm h1 h2 hle hadd
  have hb := to_hm_bounds h2
  constructor
  · simp only [parse_time_range, hm, h1, h2, hle, if_true]
    rw [hadd]
    rfl
  · rw [addMinutesE_wrap hb.1 hb.2] at hadd
    split_ifs at hadd with hy
    simp only [Option.some.injEq] at hadd
    exact hadd.symm

/-- Witness for `c3_midnight_rollover` at the midnight-crossing scenario. -/
theorem c3_midnight_rollover_witness :
    parse_time_range "11:30 PM - 12:30 AM".data ⟨2025, 10, 15⟩ =
      some (⟨⟨2025, 10, 15⟩, 23, 30⟩, ⟨⟨2025, 10, 16⟩, 0, 30⟩) ∧
    (⟨⟨2025, 10, 16⟩, 0, 30⟩ : DateTime) = ⟨nextDay ⟨2025, 10, 15⟩, 0, 30⟩ :=
  (c3_midnight_rollover.1 "11:30 PM - 12:30 AM".data ⟨2025, 10, 15⟩
    "11:30 PM".data "12:30 AM".data 23 30 0 30 ⟨⟨2025, 10, 16⟩, 0, 30⟩
    (by decide) (by decide) (by decide) (by decide) (by decide))

/-- C4: whenever `parse_time_range` returns a pair — for any input text,
matching or not — the start is strictly before the end; consequently every
event produced by `scrape_events` and held for serialization has its end
strictly after its start. -/
theorem c4_start_lt_end :
    (∀ (text : List Char) (base : Date) (p : DateTime × DateTime),
      parse_time_range text base = some p → dtLt p.1 p.2 = true) ∧
    (∀ (doc : Node) (url : List Char) (fy fm : Option Int) (ty tm : Int)
      (evs : List Event) (ev : Event),
      scrape_events doc url fy fm ty tm = some evs → ev ∈ evs →
      dtLt ev.start ev.finish = true) := by
  have part1 : ∀ (text : List Char) (base : Date) (p : DateTime × DateTime),
      parse_time_range text base = some p → dtLt p.1 p.2 = true := by
    intro text base p hp
    unfold parse_time_range at hp
    split at hp
    · -- no pattern match: all-day fallback
      cases ha : addMinutesE ⟨base, 0, 0⟩ 1439 with
      | none => rw [ha] at hp; simp at hp
      | some e =>
        rw [ha] at hp
        simp only [Option.map_some', Option.some.injEq] at hp
        subst hp
        simp only [addMinutesE] at ha
        split_ifs at ha with hy
        simp only [Option.some.injEq] at ha
        subst ha
        simp only [dtLt, DateTime.tuple]
        exact lexLt_cons_self _ (lexLt_cons_self _ (lexLt_cons_self _
          (lexLt_cons_lt (by omega) _ _)))
    next g1 g2 hg =>
      split at hp
      next sh sm eh em h1 h2 =>
        split at hp
        next hle =>
          cases ha : addMinutesE ⟨base, eh, em⟩ 1440 with
          | none => rw [ha] at hp; simp at hp
          | some e2 =>
            rw [ha] at hp
            simp only [Option.map_some', Option.some.injEq] at hp
            subst hp
            have hb := to_hm_bounds h2
            rw [addMinutesE_wrap hb.1 hb.2] at ha
            split_ifs at ha with hy
            simp only [Option.some.injEq] at ha
            subst ha
            exact dtLt_nextDay base sh sm eh em
        next hle =>
          simp only [Option.some.injEq] at hp
          subst hp
          simp only [Bool.not_eq_true] at hle
          exact lexLt_of_not_lexLe hle
      next h12 =>
        exact absurd hp (by simp)
  refine ⟨part1, ?_⟩
  intro doc url fy fm ty tm evs ev h hev
  obtain ⟨hsrc, base, li, hp, hti⟩ := scrape_events_mem h hev
  exact part1 (entryTime li) base (ev.start, ev.finish) hp

/-- Witness for `c4_start_lt_end`: the fallback pair at a concrete base, and
the single event scraped from `docVisibleDay`. -/
theorem c4_start_lt_end_witness :
    dtLt (⟨⟨2025, 10, 15⟩, 0, 0⟩ : DateTime) ⟨⟨2025, 10, 15⟩, 23, 59⟩ = true ∧
    dtLt (⟨⟨2025, 10, 7⟩, 20, 0⟩ : DateTime) ⟨⟨2025, 10, 7⟩, 21, 0⟩ = true :=
  ⟨c4_start_lt_end.1 "".data ⟨2025, 10, 15⟩
      (⟨⟨2025, 10, 15⟩, 0, 0⟩, ⟨⟨2025, 10, 15⟩, 23, 59⟩) (by decide),
   c4_start_lt_end.2 docVisibleDay "u".data (some 2025) (some 10) 2024 1
      [⟨"Trivia".data, ⟨⟨2025, 10, 7⟩, 20, 0⟩, ⟨⟨2025, 10, 7⟩, 21, 0⟩, "u".data⟩]
      ⟨"Trivia".data, ⟨⟨2025, 10, 7⟩, 20, 0⟩, ⟨⟨2025, 10, 7⟩, 21, 0⟩, "u".data⟩
      (by decide) (by decide)⟩

/-! ## Claim theorems: escaping and serialization -/

theorem pyReplace_append (p : Char) (r : List Char) (x y : List Char) :
    pyReplace p r (x ++ y) = pyReplace p r x ++ pyReplace p r y := by
  simp [pyReplace]

theorem ics_escape_append (x y : List Char) :
    ics_escape (x ++ y) = ics_escape x ++ ics_escape y := by
  simp [ics_escape, pyReplace_append]

theorem ics_escape_char (c : Char) : ics_escape [c] = escCharSpec c := by
  by_cases h1 : c = '\\'
  · subst h1; rfl
  by_cases h2 : c = ';'
  · subst h2; rfl
  by_cases h3 : c = ','
  · subst h3; rfl
  simp [ics_escape, pyReplace, escCharSpec, h1, h2, h3]

/-- C5: the sequential replacements of `ics_escape` (backslash first, then
semicolon, then comma) amount to escaping each special character of the
original string independently exactly once, so no character introduced by an
earlier replacement is escaped again; concretely the title `A, B; C\D`
escapes to `A\, B\; C\\D` (one backslash before comma and semicolon, a
doubled backslash). -/
theorem c5_escape_order :
    (∀ s : List Char, ics_escape s = s.flatMap escCharSpec) ∧
    ics_escape "A, B; C\\D".data = "A\\, B\\; C\\\\D".data := by
  refine ⟨?_, by decide⟩
  intro s
  induction s with
  | nil => rfl
  | cons c t ih =>
    have hsplit : c :: t = [c] ++ t := rfl
    rw [hsplit, ics_escape_append, ics_escape_char, ih]
    simp

theorem countLine_append (t : List Char) (a b : List (List Char)) :
    countLine t (a ++ b) = countLine t a + countLine t b := by
  induction a with
  | nil => simp [countLine]
  | cons x xs ih => simp [countLine, ih]; omega

theorem ne_of_head {a b : Char} (h : a ≠ b) (s t : List Char) :
    a :: s ≠ b :: t := by
  intro he
  injection he with h1 h2
  exact h h1

theorem eventBlock_count_begin (now : List Char) (tz : Option (List Char)) (ev : Event) :
    countLine "BEGIN:VEVENT".data (eventBlock now tz ev) = 1 := by
  have h2 : ("DTSTAMP:".data ++ now) ≠ "BEGIN:VEVENT".data := ne_of_head (by decide) _ _
  have h3 : ("UID:".data ++ make_uid (orPlaceholder ev.title) ev.start ev.finish) ≠
      "BEGIN:VEVENT".data := ne_of_head (by decide) _ _
  have h4 : ("SUMMARY:".data ++ ics_escape (orPlaceholder ev.title)) ≠
      "BEGIN:VEVENT".data := ne_of_head (by decide) _ _
  have h5 : ("DTSTART".data ++ ics_dt ev.start tz) ≠ "BEGIN:VEVENT".data :=
    ne_of_head (by decide) _ _
  have h6 : ("DTEND".data ++ ics_dt ev.finish tz) ≠ "BEGIN:VEVENT".data :=
    ne_of_head (by decide) _ _
  have h7 : ("DESCRIPTION:".data ++ ics_escape ev.source) ≠ "BEGIN:VEVENT".data :=
    ne_of_head (by decide) _ _
  by_cases hs : ev.source = [] <;>
    simp [eventBlock, countLine, countLine_append, hs, h2, h3, h4, h5, h6, h7]

theorem eventBlock_count_end (now : List Char) (tz : Option (List Char)) (ev : Event) :
    countLine "END:VEVENT".data (eventBlock now tz ev) = 1 := by
  have h2 : ("DTSTAMP:".data ++ now) ≠ "END:VEVENT".data := ne_of_head (by decide) _ _
  have h3 : ("UID:".data ++ make_uid (orPlaceholder ev.title) ev.start ev.finish) ≠
      "END:VEVENT".data := ne_of_head (by decide) _ _
  have h4 : ("SUMMARY:".data ++ ics_escape (orPlaceholder ev.title)) ≠
      "END:VEVENT".data := ne_of_head (by decide) _ _
  have h5 : ("DTSTART".data ++ ics_dt ev.start tz) ≠ "END:VEVENT".data :=
    ne_of_head (by decide) _ _
  have h6 : ("DTEND".data ++ ics_dt ev.finish tz) ≠ "END:VEVENT".data :=
    ne_of_head (by decide) _ _
  have h7 : ("DESCRIPTION:".data ++ ics_escape ev.source) ≠ "END:VEVENT".data :=
    ne_of_head (by decide) _ _
  by_cases hs : ev.source = [] <;>
    simp [eventBlock, countLine, countLine_append, hs, h2, h3, h4, h5, h6, h7]

theorem countLine_flatMap_begin (now : List Char) (tz : Option (List Char))
    (evs : List Event) :
    countLine "BEGIN:VEVENT".data (evs.flatMap (eventBlock now tz)) = evs.length := by
  induction evs with
  | nil => rfl
  | cons ev evs ih =>
    rw [List.flatMap_cons, countLine_append, eventBlock_count_begin, ih,
      List.length_cons]
    omega

theorem countLine_flatMap_end (now : List Char) (tz : Option (List Char))
    (evs : List Event) :
    countLine "END:VEVENT".data (evs.flatMap (eventBlock now tz)) = evs.length := by
  induction evs with
  | nil => rfl
  | cons ev evs ih =>
    rw [List.flatMap_cons, countLine_append, eventBlock_count_end, ih,
      List.length_cons]
    omega

/-- C7: for zero events the serialized document is exactly the five header
lines followed immediately by the wrapper close and a trailing newline (no
event blocks; `cal_name` is the program's fixed "MyVMK Events"); and for
every event sequence the line list opens with `BEGIN:VCALENDAR`, closes with
`END:VCALENDAR`, and contains as many `END:VEVENT` lines as `BEGIN:VEVENT`
lines — one pair per event — so every opened block is closed. -/
theorem c7_document_structure :
    (∀ (tz : Option (List Char)) (now : List Char),
      build_ics [] tz "MyVMK Events".data now =
        ("BEGIN:VCALENDAR\nVERSION:2.0\nPRODID:-//MyVMK Scraper//EN\n" ++
          "CALSCALE:GREGORIAN\nX-WR-CALNAME:MyVMK Events\nEND:VCALENDAR\n").data) ∧
    (∀ (evs : List Event) (tz : Option (List Char)) (name now : List Char),
      countLine "BEGIN:VEVENT".data (icsLines evs tz name now) = evs.length ∧
      countLine "END:VEVENT".data (icsLines evs tz name now) = evs.length ∧
      (icsLines evs tz name now).head? = some "BEGIN:VCALENDAR".data ∧
      (icsLines evs tz name now).getLast? = some "END:VCALENDAR".data) := by
  constructor
  · intro tz now
    rfl
  · intro evs tz name now
    have hx : ("X-WR-CALNAME:".data ++ ics_escape name) ≠ "BEGIN:VEVENT".data :=
      ne_of_head (by decide) _ _
    have hx2 : ("X-WR-CALNAME:".data ++ ics_escape name) ≠ "END:VEVENT".data :=
      ne_of_head (by decide) _ _
    refine ⟨?_, ?_, rfl, List.getLast?_concat _⟩
    · unfold icsLines
      rw [countLine_append, countLine_append, countLine_flatMap_begin]
      simp [countLine, hx]
    · unfold icsLines
      rw [countLine_append, countLine_append, countLine_flatMap_end]
      simp [countLine, hx2]

/-- C10: every event built by `scrape_events` carries the input URL as its
`source`, and for an event with a nonempty source the serialized block
contains the `DESCRIPTION:` line with the escaped source URL — the optional
description field is always present for scraper-produced events (with a
nonempty input URL). -/
theorem c10_source_description :
    (∀ (doc : Node) (url : List Char) (fy fm : Option Int) (ty tm : Int)
        (evs : List Event) (ev : Event),
      scrape_events doc url fy fm ty tm = some evs → ev ∈ evs → ev.source = url) ∧
    (∀ (now : List Char) (tz : Option (List Char)) (ev : Event),
      ev.source ≠ [] →
      ("DESCRIPTION:".data ++ ics_escape ev.source) ∈ eventBlock now tz ev) := by
  constructor
  · intro doc url fy fm ty tm evs ev h hev
    exact (scrape_events_mem h hev).1
  · intro now tz ev hs
    simp [eventBlock, hs]

/-- Witness for `c10_source_description`: the event scraped from
`docVisibleDay` carries the input URL, and its block holds the description
line. -/
theorem c10_source_description_witness :
    (⟨"Trivia".data, ⟨⟨2025, 10, 7⟩, 20, 0⟩, ⟨⟨2025, 10, 7⟩, 21, 0⟩,
        "u".data⟩ : Event).source = "u".data ∧
    ("DESCRIPTION:".data ++ ics_escape "u".data) ∈
      eventBlock "20251012T000000Z".data none
        ⟨"Trivia".data, ⟨⟨2025, 10, 7⟩, 20, 0⟩, ⟨⟨2025, 10, 7⟩, 21, 0⟩, "u".data⟩ :=
  ⟨c10_source_description.1 docVisibleDay "u".data (some 2025) (some 10) 2024 1
      [⟨"Trivia".data, ⟨⟨2025, 10, 7⟩, 20, 0⟩, ⟨⟨2025, 10, 7⟩, 21, 0⟩, "u".data⟩]
      ⟨"Trivia".data, ⟨⟨2025, 10, 7⟩, 20, 0⟩, ⟨⟨2025, 10, 7⟩, 21, 0⟩, "u".data⟩
      (by decide) (by decide),
   c10_source_description.2 "20251012T000000Z".data none
      ⟨"Trivia".data, ⟨⟨2025, 10, 7⟩, 20, 0⟩, ⟨⟨2025, 10, 7⟩, 21, 0⟩, "u".data⟩
      (by decide)⟩

/-! ## Claim theorems: extraction -/

/-- C9 counterexample: the extraction stage does NOT preserve an empty title
in the stored event — for a day whose only entry has an empty title and time
text "6:00 PM - 7:00 PM", `scrape_events` already stores the placeholder name
"MyVMK Event" in the event's title field. -/
theorem c9_counterexample :
    scrape_events docEmptyTitle "u".data (some 2025) (some 10) 2024 1 =
      some [⟨"MyVMK Event".data, ⟨⟨2025, 10, 5⟩, 18, 0⟩, ⟨⟨2025, 10, 5⟩, 19, 0⟩,
        "u".data⟩] ∧
    "MyVMK Event".data ≠ ([] : List Char) :=
  ⟨by decide, by decide⟩

/-- C9 (amended): an entry is skipped if and only if both its title and its
time text are empty; but when the title alone is empty the placeholder name
"MyVMK Event" is substituted already at extraction time (the stored event
carries the placeholder, not the empty string), and serialization substitutes
it again defensively for any event whose stored title is empty. -/
theorem c9_skip_and_placeholder :
    (∀ (url : List Char) (base : Date) (li : Node),
      processLi url base li = some [] ↔ (entryTitle li = [] ∧ entryTime li = [])) ∧
    (∀ (url : List Char) (base : Date) (li : Node) (l : List Event) (ev : Event),
      processLi url base li = some l → ev ∈ l →
      ev.title = orPlaceholder (entryTitle li)) ∧
    (∀ (now : List Char) (tz : Option (List Char)) (ev : Event),
      ev.title = [] →
      ("SUMMARY:".data ++ ics_escape "MyVMK Event".data) ∈ eventBlock now tz ev) := by
  refine ⟨?_, ?_, ?_⟩
  · intro url base li
    constructor
    · intro h
      unfold processLi at h
      split_ifs at h with hc
      · exact hc
      · cases hp : parse_time_range (entryTime li) base with
        | none => rw [hp] at h; simp at h
        | some pr => rw [hp] at h; simp at h
    · intro hc
      unfold processLi
      rw [if_pos hc]
  · intro url base li l ev h hev
    exact (processLi_mem h hev).2.2
  · intro now tz ev ht
    have : orPlaceholder ev.title = "MyVMK Event".data := by
      simp [orPlaceholder, ht]
    simp [eventBlock, this]

/-- Witness for `c9_skip_and_placeholder`: the entry of `liEmptyTitle`
(empty title, well-formed time) is stored with the placeholder title, and a
stored empty title serializes to the placeholder summary line. -/
theorem c9_skip_and_placeholder_witness :
    (⟨"MyVMK Event".data, ⟨⟨2025, 10, 5⟩, 18, 0⟩, ⟨⟨2025, 10, 5⟩, 19, 0⟩,
        "u".data⟩ : Event).title = orPlaceholder (entryTitle liEmptyTitle) ∧
    ("SUMMARY:".data ++ ics_escape "MyVMK Event".data) ∈
      eventBlock "20251012T000000Z".data none
        ⟨[], ⟨⟨2025, 10, 5⟩, 0, 0⟩, ⟨⟨2025, 10, 5⟩, 23, 59⟩, "u".data⟩ :=
  ⟨c9_skip_and_placeholder.2.1 "u".data ⟨2025, 10, 5⟩ liEmptyTitle
      [⟨"MyVMK Event".data, ⟨⟨2025, 10, 5⟩, 18, 0⟩, ⟨⟨2025, 10, 5⟩, 19, 0⟩, "u".data⟩]
      ⟨"MyVMK Event".data, ⟨⟨2025, 10, 5⟩, 18, 0⟩, ⟨⟨2025, 10, 5⟩, 19, 0⟩, "u".data⟩
      (by decide) (by decide),
   c9_skip_and_placeholder.2.2 "20251012T000000Z".data none
      ⟨[], ⟨⟨2025, 10, 5⟩, 0, 0⟩, ⟨⟨2025, 10, 5⟩, 23, 59⟩, "u".data⟩ rfl⟩

/-- C8: contrary to the claim, a day container carrying the hidden marker IS
selected and its events DO reach the output.  BeautifulSoup applies the
`class_` filter function to each class token separately (and only then to
the joined string), so for `class="day hidden"` the token "day" alone
satisfies `"day" in c.split() and "hidden" not in c.split()` — the code's
own comment ("class containing 'day' but not 'hidden'") is not what the call
implements.  Evaluated at the failing input `docHiddenDay`. -/
theorem c8_hidden_day_included :
    isDayDiv (.elemN "div".data (some ["day".data, "hidden".data]) .nilN .nilN) = true ∧
    scrape_events docHiddenDay "http://example.com".data (some 2025) (some 10) 2025 10 =
      some [⟨"Fireworks".data, ⟨⟨2025, 10, 5⟩, 18, 0⟩, ⟨⟨2025, 10, 5⟩, 19, 0⟩,
        "http://example.com".data⟩] :=
  ⟨by decide, by decide⟩

/-! ## Claim theorems: header resolution -/

/-- C1 counterexample: with a document whose header yields no month/year and
a year override 2025 but no month override, the resolved context is the
current local date (here 2024-05) — the year override is NOT honored. -/
theorem c1_header_override_counterexample :
    parse_header_month_year docNoHeader = (none, none) ∧
    resolveYM (parse_header_month_year docNoHeader) (some 2025) none 2024 5 = (2024, 5) ∧
    (resolveYM (parse_header_month_year docNoHeader) (some 2025) none 2024 5).1 ≠ 2025 :=
  ⟨by decide, by decide, by decide⟩

/-- C1 (amended): year and month overrides take precedence over parsed
values independently as long as both effective fields are resolved (truthy):
both overrides always win, and a single override combines with the parsed
value of the other field.  But whenever either effective field is still
missing (or zero) after applying the overrides, the current local date
replaces BOTH fields, discarding any override that was supplied for the
other field — so a year override given with a failed header parse and no
month override is ignored. -/
theorem c1_header_override :
    (∀ (py pm : Option Int) (y m ty tm : Int), y ≠ 0 → m ≠ 0 →
      resolveYM (py, pm) (some y) (some m) ty tm = (y, m)) ∧
    (∀ (py : Option Int) (y m ty tm : Int), y ≠ 0 → m ≠ 0 →
      resolveYM (py, some m) (some y) none ty tm = (y, m)) ∧
    (∀ (pm : Option Int) (y m ty tm : Int), y ≠ 0 → m ≠ 0 →
      resolveYM (some y, pm) none (some m) ty tm = (y, m)) ∧
    (∀ (parsed : Option Int × Option Int) (fy fm : Option Int) (ty tm : Int),
      (intTruthy (if intTruthy fy then fy else parsed.1) = false ∨
        intTruthy (if intTruthy fm then fm else parsed.2) = false) →
      resolveYM parsed fy fm ty tm = (ty, tm)) := by
  refine ⟨?_, ?_, ?_, ?_⟩
  · intro py pm y m ty tm hy hm
    simp [resolveYM, intTruthy, hy, hm]
  · intro py y m ty tm hy hm
    simp [resolveYM, intTruthy, hy, hm]
  · intro pm y m ty tm hy hm
    simp [resolveYM, intTruthy, hy, hm]
  · intro parsed fy fm ty tm hor
    rcases hor with h | h <;> simp [resolveYM, h]

/-- Witness for `c1_header_override`: a year override combined with a parsed
month, and the fallback case of the counterexample document. -/
theorem c1_header_override_witness :
    resolveYM (some 2023, some 7) (some 2025) none 2024 5 = (2025, 7) ∧
    resolveYM (none, none) (some 2025) none 2024 5 = (2024, 5) :=
  ⟨c1_header_override.2.1 (some 2023) 2025 7 2024 5 (by decide) (by decide),
   c1_header_override.2.2.2 (none, none) (some 2025) none 2024 5
     (Or.inr (by decide))⟩

/-! ## Claim theorems: identifier derivation -/

theorem toHexPad_length (k n : Nat) : (toHexPad k n).length = k := by
  induction k generalizing n with
  | zero => rfl
  | succ k ih => simp [toHexPad, ih]

theorem toHexPad_congr {k a b : Nat} (h : a % 16 ^ k = b % 16 ^ k) :
    toHexPad k a = toHexPad k b := by
  induction k generalizing a b with
  | zero => rfl
  | succ k ih =>
    have hdvd : (16 : Nat) ∣ 16 ^ (k + 1) := dvd_pow_self 16 (Nat.succ_ne_zero k)
    have hmod : a % 16 = b % 16 := by
      rw [← Nat.mod_mod_of_dvd a hdvd, h, Nat.mod_mod_of_dvd b hdvd]
    have h16 : (16 : Nat) ^ (k + 1) = 16 * 16 ^ k := by ring
    have hdiv : a / 16 % 16 ^ k = b / 16 % 16 ^ k := by
      have e1 : a / 16 % 16 ^ k = a % 16 ^ (k + 1) / 16 := by
        rw [h16, Nat.mod_mul_right_div_self]
      have e2 : b / 16 % 16 ^ k = b % 16 ^ (k + 1) / 16 := by
        rw [h16, Nat.mod_mul_right_div_self]
      rw [e1, e2, h]
    simp [toHexPad, ih hdiv, hmod]

theorem make_uid_length (t : List Char) (s e : DateTime) :
    (make_uid t s e).length = 46 := by
  simp [make_uid, toHexPad_length]

theorem digitChar_inj_lt {a b : Nat} (ha : a < 10) (hb : b < 10)
    (h : Nat.digitChar a = Nat.digitChar b) : a = b := by
  interval_cases a <;> interval_cases b <;> revert h <;> decide

theorem pad4_inj {a b : Nat} (ha : a < 10000) (hb : b < 10000)
    (h : pad4 a = pad4 b) : a = b := by
  simp only [pad4, List.cons.injEq, and_true] at h
  obtain ⟨h1, h2, h3, h4⟩ := h
  have e1 := digitChar_inj_lt (by omega) (by omega) h1
  have e2 := digitChar_inj_lt (by omega) (by omega) h2
  have e3 := digitChar_inj_lt (by omega) (by omega) h3
  have e4 := digitChar_inj_lt (by omega) (by omega) h4
  omega

theorem pad2_inj {a b : Nat} (ha : a < 100) (hb : b < 100)
    (h : pad2 a = pad2 b) : a = b := by
  simp only [pad2, List.cons.injEq, and_true] at h
  obtain ⟨h1, h2⟩ := h
  have e1 := digitChar_inj_lt (by omega) (by omega) h1
  have e2 := digitChar_inj_lt (by omega) (by omega) h2
  omega

theorem daysInMonth_le (y m : Nat) : daysInMonth y m ≤ 31 := by
  unfold daysInMonth
  split_ifs <;> simp

theorem isoformat_length (t : DateTime) : (isoformat t).length = 19 := by
  simp [isoformat, pad4, pad2]

theorem isoformat_inj {s e : DateTime} (hs : s.validB = true)
    (he : e.validB = true) (h : isoformat s = isoformat e) : s = e := by
  obtain ⟨⟨sy, smo, sd⟩, sh, smi⟩ := s
  obtain ⟨⟨ey, emo, ed⟩, eh, emi⟩ := e
  simp only [DateTime.validB, Date.validB, Bool.and_eq_true, decide_eq_true_eq] at hs he
  have hsd : sd ≤ 31 := by
    have h31 := daysInMonth_le sy smo
    omega
  have hed : ed ≤ 31 := by
    have h31 := daysInMonth_le ey emo
    omega
  simp only [isoformat, pad4, pad2, List.cons_append, List.nil_append,
    List.cons.injEq, and_true] at h
  obtain ⟨a1, a2, a3, a4, -, b1, b2, -, c1, c2, -, d1, d2, -, f1, f2⟩ := h
  have hy1 := digitChar_inj_lt (by omega) (by omega) a1
  have hy2 := digitChar_inj_lt (by omega) (by omega) a2
  have hy3 := digitChar_inj_lt (by omega) (by omega) a3
  have hy4 := digitChar_inj_lt (by omega) (by omega) a4
  have hm1 := digitChar_inj_lt (by omega) (by omega) b1
  have hm2 := digitChar_inj_lt (by omega) (by omega) b2
  have hd1 := digitChar_inj_lt (by omega) (by omega) c1
  have hd2 := digitChar_inj_lt (by omega) (by omega) c2
  have hh1 := digitChar_inj_lt (by omega) (by omega) d1
  have hh2 := digitChar_inj_lt (by omega) (by omega) d2
  have hi1 := digitChar_inj_lt (by omega) (by omega) f1
  have hi2 := digitChar_inj_lt (by omega) (by omega) f2
  simp only [DateTime.mk.injEq, Date.mk.injEq]
  refine ⟨⟨?_, ?_, ?_⟩, ?_, ?_⟩ <;> omega

theorem uidData_inj {t1 t2 : List Char} {s1 e1 s2 e2 : DateTime}
    (hs1 : s1.validB = true) (he1 : e1.validB = true)
    (hs2 : s2.validB = true) (he2 : e2.validB = true)
    (h : uidData t1 s1 e1 = uidData t2 s2 e2) :
    t1 = t2 ∧ s1 = s2 ∧ e1 = e2 := by
  unfold uidData at h
  have hlen : ('|' :: (isoformat s1 ++ '|' :: isoformat e1)).length =
      ('|' :: (isoformat s2 ++ '|' :: isoformat e2)).length := by
    simp [isoformat_length]
  obtain ⟨ht, hrest⟩ := List.append_inj' h hlen
  simp only [List.cons.injEq, true_and] at hrest
  have hlen2 : ('|' :: isoformat e1).length = ('|' :: isoformat e2).length := by
    simp [isoformat_length]
  obtain ⟨hiso1, hrest2⟩ := List.append_inj' hrest hlen2
  simp only [List.cons.injEq, true_and] at hrest2
  exact ⟨ht, isoformat_inj hs1 hs2 hiso1, isoformat_inj he1 he2 hrest2⟩

/-- C6 (amended): identifier derivation is a deterministic pure function of
(title, start, end) whose output always has the fixed shape of 40 hex-digest
digits plus the `@myvmk` tag (46 characters), and any difference in any one
of the three inputs changes the hashed byte string — the pre-hash encoding
`title|start-iso|end-iso` is injective for valid timestamps.  (Distinct
triples can nevertheless collide on the fixed-length digest itself; see the
counterexample.) -/
theorem c6_uid_determinism_and_encoding :
    (∀ (t : List Char) (s e : DateTime), (make_uid t s e).length = 46) ∧
    (∀ (t1 t2 : List Char) (s1 e1 s2 e2 : DateTime),
      s1.validB = true → e1.validB = true → s2.validB = true → e2.validB = true →
      uidData t1 s1 e1 = uidData t2 s2 e2 → t1 = t2 ∧ s1 = s2 ∧ e1 = e2) :=
  ⟨make_uid_length, fun _ _ _ _ _ _ h1 h2 h3 h4 h => uidData_inj h1 h2 h3 h4 h⟩

/-- Witness for `c6_uid_determinism_and_encoding` at a concrete triple. -/
theorem c6_uid_determinism_and_encoding_witness :
    (make_uid "Fireworks".data ⟨⟨2025, 10, 15⟩, 18, 0⟩ ⟨⟨2025, 10, 15⟩, 19, 0⟩).length
        = 46 ∧
    ("Fireworks".data = "Fireworks".data ∧
      (⟨⟨2025, 10, 15⟩, 18, 0⟩ : DateTime) = ⟨⟨2025, 10, 15⟩, 18, 0⟩ ∧
      (⟨⟨2025, 10, 15⟩, 19, 0⟩ : DateTime) = ⟨⟨2025, 10, 15⟩, 19, 0⟩) :=
  ⟨c6_uid_determinism_and_encoding.1 "Fireworks".data
      ⟨⟨2025, 10, 15⟩, 18, 0⟩ ⟨⟨2025, 10, 15⟩, 19, 0⟩,
   c6_uid_determinism_and_encoding.2 "Fireworks".data "Fireworks".data
      ⟨⟨2025, 10, 15⟩, 18, 0⟩ ⟨⟨2025, 10, 15⟩, 19, 0⟩
      ⟨⟨2025, 10, 15⟩, 18, 0⟩ ⟨⟨2025, 10, 15⟩, 19, 0⟩
      (by decide) (by decide) (by decide) (by decide) rfl⟩

/-- C6 counterexample: the identifier map cannot distinguish every pair of
triples — `make_uid` lands in the fixed finite set of 46-character strings,
so by the pigeonhole principle two DIFFERENT titles (with the same start and
end) share an identifier.  This refutes "any difference in any one of the
three inputs changes the identifier" as a universal statement. -/
theorem c6_uid_counterexample :
    ∃ t1 t2 : List Char, t1 ≠ t2 ∧
      make_uid t1 ⟨⟨2025, 10, 15⟩, 18, 0⟩ ⟨⟨2025, 10, 15⟩, 19, 0⟩ =
        make_uid t2 ⟨⟨2025, 10, 15⟩, 18, 0⟩ ⟨⟨2025, 10, 15⟩, 19, 0⟩ := by
  obtain ⟨n, m, hne, heq⟩ := Finite.exists_ne_map_eq_of_infinite
    (fun n : Nat =>
      (⟨sha1 (utf8Encode (uidData (List.replicate n 'a')
          ⟨⟨2025, 10, 15⟩, 18, 0⟩ ⟨⟨2025, 10, 15⟩, 19, 0⟩)) % 16 ^ 40,
        Nat.mod_lt _ (by positivity)⟩ : Fin (16 ^ 40)))
  refine ⟨List.replicate n 'a', List.replicate m 'a', ?_, ?_⟩
  · intro hc
    exact hne (by simpa using congrArg List.length hc)
  · unfold make_uid
    have hv : sha1 (utf8Encode (uidData (List.replicate n 'a')
          ⟨⟨2025, 10, 15⟩, 18, 0⟩ ⟨⟨2025, 10, 15⟩, 19, 0⟩)) % 16 ^ 40 =
        sha1 (utf8Encode (uidData (List.replicate m 'a')
          ⟨⟨2025, 10, 15⟩, 18, 0⟩ ⟨⟨2025, 10, 15⟩, 19, 0⟩)) % 16 ^ 40 :=
      congrArg Fin.val heq
    rw [toHexPad_congr hv]

end Myvmk
